import Mathlib

/-!
Shallow embedding of the LISFLOOD river-channel routing engine
(`src/lisflood/hydrological_modules/routing.py`).

The numpy array operations of the source are elementwise, so the per-pixel
scalar functions below are a faithful shallow embedding; "for every pixel"
becomes universal quantification over the per-pixel inputs.  The cython
kinematic-wave solver `kinematicWaveRouting` and the topological-distance
routine `topoDistFromSea` live in `kinematic_wave_parallel`, outside the
sources at hand; the solver's per-pixel output is therefore taken as an
arbitrary real input, and the distance function is modelled from the spec.
-/

namespace Lisflood

noncomputable section

/-- Per-pixel channel parameters (`self.var` fields used by the routers). -/
structure ChanParams where
  ChanLength : ℝ
  InvChanLength : ℝ
  ChannelAlpha : ℝ
  InvChannelAlpha : ℝ
  ChannelAlpha2 : ℝ
  InvChannelAlpha2 : ℝ
  Beta : ℝ
  InvBeta : ℝ

/-- Per-pixel split-routing parameters. -/
structure SplitParams where
  Chan2M3Start : ℝ
  M3Limit : ℝ
  Chan2QStart : ℝ
  QLimit : ℝ

/-- Per-pixel state evolved by `SplitRouting`. -/
structure SplitState where
  ChanQKin : ℝ
  ChanM3Kin : ℝ
  Chan2QKin : ℝ
  Chan2M3Kin : ℝ

/-- `routing.KINRouting`, per pixel, after the call into the external cython
solver `kinematicWaveRouting`; `Qkw` is that solver's output for the pixel.
Returns `(ChanQKin, ChanM3Kin)` at `t+dt`:
`ChanM3Kin = max(ChanLength * ChannelAlpha * Qkw ** Beta, 0)` and
`ChanQKin = (ChanM3Kin * InvChanLength * InvChannelAlpha) ** InvBeta`. -/
def KINRouting (p : ChanParams) (Qkw : ℝ) : ℝ × ℝ :=
  let ChanM3Kin0 := p.ChanLength * p.ChannelAlpha * Qkw ^ p.Beta
  let ChanM3Kin := max ChanM3Kin0 0
  let ChanQKin := (ChanM3Kin * p.InvChanLength * p.InvChannelAlpha) ^ p.InvBeta
  (ChanQKin, ChanM3Kin)

/-- `SideflowRatio` in `routing.SplitRouting`:
`np.where(ChanM3Kin + Chan2M3Kin > 0, ChanM3Kin / (ChanM3Kin + Chan2M3Kin), 0)`. -/
def SideflowRatio (s : SplitState) : ℝ :=
  if s.ChanM3Kin + s.Chan2M3Kin > 0 then s.ChanM3Kin / (s.ChanM3Kin + s.Chan2M3Kin)
  else 0

/-- `Sideflow1Chan` in `routing.SplitRouting`: the part of the lateral inflow
`SideflowChan` routed into the main channel. -/
def Sideflow1Chan (pp : SplitParams) (s : SplitState) (SideflowChan : ℝ) : ℝ :=
  let sf1 :=
    if s.ChanM3Kin + s.Chan2M3Kin - pp.Chan2M3Start > pp.M3Limit then
      SideflowRatio s * SideflowChan
    else SideflowChan
  if |SideflowChan| < 1e-7 then SideflowChan else sf1

/-- `Sideflow2Chan` in `routing.SplitRouting`: remainder of the lateral inflow
plus the constant feed `Chan2QStart * InvChanLength`. -/
def Sideflow2Chan (p : ChanParams) (pp : SplitParams) (s : SplitState)
    (SideflowChan : ℝ) : ℝ :=
  SideflowChan - Sideflow1Chan pp s SideflowChan + pp.Chan2QStart * p.InvChanLength

/-- `routing.SplitRouting`, per pixel, after the two calls into the external
cython solver; `kw1` and `kw2` are its outputs for the main line and the
floodplain line.  Mirrors the storage/discharge updates and clamps of the
source (main-channel volume clamped at `0`; floodplain volume floored at
`Chan2M3Start`). -/
def SplitRouting (p : ChanParams) (pp : SplitParams) (kw1 kw2 : ℝ) : SplitState :=
  let ChanM3Kin := max (p.ChanLength * p.ChannelAlpha * kw1 ^ p.Beta) 0
  let ChanQKin := (ChanM3Kin * p.InvChanLength * p.InvChannelAlpha) ^ p.InvBeta
  let Chan2M3Kin0 := p.ChanLength * p.ChannelAlpha2 * kw2 ^ p.Beta
  let diffM3 := Chan2M3Kin0 - pp.Chan2M3Start
  let Chan2M3Kin := if diffM3 < 0 then pp.Chan2M3Start else Chan2M3Kin0
  let Chan2QKin := (Chan2M3Kin * p.InvChanLength * p.InvChannelAlpha2) ^ p.InvBeta
  ⟨ChanQKin, ChanM3Kin, Chan2QKin, Chan2M3Kin⟩

/-- The split-routing recombination committed by `routing.dynamic`:
`ChanQ = np.maximum(ChanQKin + Chan2QKin - QLimit, 0)` and
`ChanM3 = ChanM3Kin + Chan2M3Kin - Chan2M3Start`. -/
def splitRecombine (pp : SplitParams) (s : SplitState) : ℝ × ℝ :=
  (max (s.ChanQKin + s.Chan2QKin - pp.QLimit) 0,
   s.ChanM3Kin + s.Chan2M3Kin - pp.Chan2M3Start)

/-- `routing.cotan`. -/
def cotan (x : ℝ) : ℝ := Real.cos x / Real.sin x

/-- Result of `routing.qoh`: discharge, wet area, surface width, wet contour,
wave celerity. -/
structure QohResult where
  q : ℝ
  a : ℝ
  b : ℝ
  p : ℝ
  cel : ℝ

/-- `routing.qoh`: Manning discharge and celerity from water depth for a
rectangular, triangular or trapezoidal cross-section. -/
def qoh (y s0 Balv ANalv Nalv : ℝ) : QohResult :=
  let alpha : ℝ := 5 / 3
  let rs0 := Real.sqrt s0
  let alpham := alpha - 1
  let c := if ANalv < Real.pi / 2 then cotan ANalv else 0
  let s := if ANalv < Real.pi / 2 then Real.sin ANalv else 1
  let a := (Balv + y * c) * y
  let b := Balv + 2 * y * c
  let p := Balv + 2 * y / s
  let q := rs0 / Nalv * a ^ alpha / p ^ alpham
  let cel := (q / 3) * (5 / a - 4 / (p * b * s))
  ⟨q, a, b, p, cel⟩

/-- Newton-Raphson convergence threshold of `routing.hoq` (`eps = 1.e-06`). -/
def hoqEps : ℝ := 1e-6

/-- Iteration budget constant of `routing.hoq` (`max_tries = 1000`); the loop
`for tries in range(1, max_tries)` executes its body at most
`hoqMaxTries - 1` times. -/
def hoqMaxTries : ℕ := 1000

/-- The closed-form initial-depth estimate of `routing.hoq`, specialized per
cross-section family (triangular `Balv = 0`, rectangular `ANalv ≥ π/2`,
trapezoidal otherwise). -/
def hoqInit (q s0 Balv ANalv Nalv : ℝ) : ℝ :=
  let alpha : ℝ := 5 / 3
  let rs0 := Real.sqrt s0
  let usalpha := 1 / alpha
  let c := if ANalv < Real.pi / 2 then cotan ANalv else 0
  let s := if ANalv < Real.pi / 2 then Real.sin ANalv else 1
  let y :=
    if Balv = 0 then
      (Nalv * q / rs0) ^ ((3 : ℝ) / 8) * (2 / s) ^ ((1 : ℝ) / 4) / c ^ ((5 : ℝ) / 8)
    else (Nalv * q / (rs0 * Balv)) ^ usalpha
  if Balv ≠ 0 ∧ ANalv < Real.pi / 2 then
    (Nalv * q / rs0) ^ usalpha * (Balv + 2 * y / s) ^ (0.4 : ℝ) / (Balv + c * y)
  else y

/-- One Newton correction `dy = f(y) / df(y)` of `routing.hoq`, with
`f(y) = Q(y) - q` and `df(y) = Bx(y) * cel(y)` computed through `qoh`. -/
def newtonDy (q s0 Balv ANalv Nalv y : ℝ) : ℝ :=
  let r := qoh y s0 Balv ANalv Nalv
  (r.q - q) / (r.b * r.cel)

/-- One Newton update `y ↦ y - dy` of `routing.hoq`. -/
def newtonStep (q s0 Balv ANalv Nalv y : ℝ) : ℝ :=
  y - newtonDy q s0 Balv ANalv Nalv y

/-- The Newton-Raphson loop of `routing.hoq` with explicit fuel: each pass
updates `y` and stops early once `|dy| < eps` (the source updates `y` before
testing the break condition). -/
def hoqGo (q s0 Balv ANalv Nalv : ℝ) : ℕ → ℝ → ℝ
  | 0, y => y
  | n + 1, y =>
    let dy := newtonDy q s0 Balv ANalv Nalv y
    let y1 := y - dy
    if |dy| < hoqEps then y1 else hoqGo q s0 Balv ANalv Nalv n y1

/-- `routing.hoq`: water depth from discharge via Newton-Raphson, at most
`max_tries - 1 = 999` loop passes (`for tries in range(1, 1000)`), returning
the last iterate on non-convergence. -/
def hoq (q s0 Balv ANalv Nalv : ℝ) : ℝ :=
  hoqGo q s0 Balv ANalv Nalv (hoqMaxTries - 1) (hoqInit q s0 Balv ANalv Nalv)

/-- The epsilon of `routing.MCTRouting_single` (`eps = 1e-06`). -/
def mctEps : ℝ := 1e-6

/-- Reference-discharge guard of `routing.MCTRouting_single`: the average of
two discharges, replaced by `eps` when it is exactly zero (applied to
`qmx0 = (q00+q01)/2`, `qmx1 = (q10+q11)/2` and `qm1 = (q01+q11)/2` before
each depth inversion through `hoq`). -/
def refQ (a b : ℝ) : ℝ :=
  let q := (a + b) / 2
  if q = 0 then mctEps else q

/-- One refinement pass of the `for i in range(2)` loop of
`routing.MCTRouting_single`, before the final flooring of the outflow:
returns `(q11raw, Cm1, Dm1)` where `q11raw = c1*q01 + c2*q00 + c3*q10 + c4*ql`
is the Muskingum update. -/
def MCTPassCore (q10 q01 q00 ql Cm0 Dm0 dt xpix s0 Balv ANalv Nalv q11 : ℝ) :
    ℝ × ℝ × ℝ :=
  let qmx0 := refQ q00 q01
  let hmx0 := hoq qmx0 s0 Balv ANalv Nalv
  let qmx1 := refQ q10 q11
  let hmx1 := hoq qmx1 s0 Balv ANalv Nalv
  let cor := 1 - (1 / s0 * (hmx1 - hmx0) / xpix)
  let sfx0 := s0 * cor
  let sfx := if sfx0 < 0.8 * s0 then 0.8 * s0 else sfx0
  let qm1 := refQ q01 q11
  let hm1 := hoq qm1 s0 Balv ANalv Nalv
  let r := qoh hm1 s0 Balv ANalv Nalv
  let ck1 := if r.cel ≤ mctEps then mctEps else r.cel
  let Beta1 := ck1 / (qm1 / r.a)
  let Dm1 := qm1 / (sfx * ck1 * r.b * xpix) / Beta1
  let Cm1 := ck1 * dt / xpix / Beta1
  let den := 1 + Cm1 + Dm1
  let c1 := (-1 + Cm1 + Dm1) / den
  let c2 := (1 + Cm0 - Dm0) / den * (Cm1 / Cm0)
  let c3 := (1 - Cm0 + Dm0) / den * (Cm1 / Cm0)
  let c4 := (2 * Cm1) / den
  (c1 * q01 + c2 * q00 + c3 * q10 + c4 * ql, Cm1, Dm1)

/-- One refinement pass of `routing.MCTRouting_single` including the floor of
a negative intermediate outflow at `eps` (`if q11 < 0.: q11 = eps`).
Returns `(q11, Cm1, Dm1)`. -/
def MCTPass (q10 q01 q00 ql Cm0 Dm0 dt xpix s0 Balv ANalv Nalv q11 : ℝ) :
    ℝ × ℝ × ℝ :=
  let c := MCTPassCore q10 q01 q00 ql Cm0 Dm0 dt xpix s0 Balv ANalv Nalv q11
  (if c.1 < 0 then mctEps else c.1, c.2.1, c.2.2)

/-- `routing.MCTRouting_single`: first guess
`q11 = q10 + (q01 - q00)` clamped at `0`, two refinement passes, then the
storage `V11 = (1-Dm1)*dt/(2*Cm1)*q01 + (1+Dm1)*dt/(2*Cm1)*q11` floored at
`0`.  Returns `(q11, V11, Cm1, Dm1)`. -/
def MCTRouting_single (q10 q01 q00 ql Cm0 Dm0 dt xpix s0 Balv ANalv Nalv : ℝ) :
    ℝ × ℝ × ℝ × ℝ :=
  let q11g0 := q10 + (q01 - q00)
  let q11g := if q11g0 < 0 then 0 else q11g0
  let p1 := MCTPass q10 q01 q00 ql Cm0 Dm0 dt xpix s0 Balv ANalv Nalv q11g
  let p2 := MCTPass q10 q01 q00 ql Cm0 Dm0 dt xpix s0 Balv ANalv Nalv p1.1
  let V11 := (1 - p2.2.2) * dt / (2 * p2.2.1) * q01
    + (1 + p2.2.2) * dt / (2 * p2.2.1) * p2.1
  let V11c := if V11 < 0 then 0 else V11
  (p2.1, V11c, p2.2.1, p2.2.2)

end

/-- `routing.get_mct_pix`: compress a whole-catchment array to the MCT pixels,
i.e. the positions where `IsChannelKinematic` is false
(`np.ma.masked_where(IsChannelKinematic, var).compressed()`). -/
def get_mct_pix {α : Type} (mask : List Bool) (var : List α) : List α :=
  (mask.zip var).filterMap fun pr => if pr.1 then none else some pr.2

/-- `routing.put_mct_pix`: explode an MCT-pixels-only array back to the whole
catchment, placing zeros at the kinematic pixels; the masked assignment
`x[~x.mask] = var` requires `var` to have exactly one entry per MCT pixel,
anything else is a numpy broadcast error, modelled as `none`. -/
def put_mct_pix {α : Type} [Zero α] : List Bool → List α → Option (List α)
  | [], [] => some []
  | [], _ :: _ => none
  | true :: m, v => (put_mct_pix m v).map (fun w => (0 : α) :: w)
  | false :: _, [] => none
  | false :: m, x :: v => (put_mct_pix m v).map (fun w => x :: w)

/-- Modelled from the spec: `topoDistFromSea` (in `kinematic_wave_parallel`,
outside the sources at hand) assigns each pixel its topological distance from
the outlet: outlets (no downstream pixel) get distance `0`, every other pixel
is one more than its downstream pixel. -/
def TopoDistSpec {n : ℕ} (down : Fin n → Option (Fin n)) (dist : Fin n → ℕ) : Prop :=
  ∀ p, dist p = (down p).elim 0 fun q => dist q + 1

/-- Maximum topological distance over the whole network
(`ocean_topo_distance.max()` in `mctWave._setMCTRoutingOrders`). -/
def maxTopoDist {n : ℕ} (dist : Fin n → ℕ) : ℕ :=
  Finset.univ.sup dist

/-- `routing_order = ocean_topo_distance.max() - ocean_topo_distance` in
`mctWave._setMCTRoutingOrders`. -/
def routingOrder {n : ℕ} (dist : Fin n → ℕ) (p : Fin n) : ℕ :=
  maxTopoDist dist - dist p

/-- The pixels of one routing-order batch, in ascending pixel index
(`sort_values(["order", "pixels"])` groups them this way). -/
def batchPixels {n : ℕ} (dist : Fin n → ℕ) (k : ℕ) : List (Fin n) :=
  (List.finRange n).filter fun p => routingOrder dist p = k

/-- `pixels_ordered` of `mctWave._setMCTRoutingOrders`: all pixels sorted by
`(order, pixel)`, i.e. the concatenation of the batches. -/
def pixelsOrdered {n : ℕ} (dist : Fin n → ℕ) : List (Fin n) :=
  (List.range (maxTopoDist dist + 1)).flatMap (batchPixels dist)

/-- First column of `order_start_stop`: the cumulative count of pixels in the
batches before batch `k`. -/
def orderStart {n : ℕ} (dist : Fin n → ℕ) (k : ℕ) : ℕ :=
  ((List.range k).map fun j => (batchPixels dist j).length).sum

/-- Second column of `order_start_stop`: cumulative count through batch `k`. -/
def orderStop {n : ℕ} (dist : Fin n → ℕ) (k : ℕ) : ℕ :=
  orderStart dist k + (batchPixels dist k).length

noncomputable section

/-- The cotangent of the side angle as the spec's formula states it: taken as
`0` for rectangular sections (`ANalv ≥ π/2`). -/
def specCot (ANalv : ℝ) : ℝ :=
  if Real.pi / 2 ≤ ANalv then 0 else Real.cos ANalv / Real.sin ANalv

/-- The sine of the side angle as the spec's formula states it: taken as `1`
for rectangular sections (`ANalv ≥ π/2`). -/
def specSin (ANalv : ℝ) : ℝ :=
  if Real.pi / 2 ≤ ANalv then 1 else Real.sin ANalv

/-- Wet area as the spec states it: `A = (Balv + y·cot(ANalv))·y`. -/
def specArea (y Balv ANalv : ℝ) : ℝ := (Balv + y * specCot ANalv) * y

/-- Water-surface width as the spec states it: `B = Balv + 2·y·cot(ANalv)`. -/
def specWidth (y Balv ANalv : ℝ) : ℝ := Balv + 2 * y * specCot ANalv

/-- Wet contour as the spec states it: `P = Balv + 2·y/sin(ANalv)`. -/
def specPerimeter (y Balv ANalv : ℝ) : ℝ := Balv + 2 * y / specSin ANalv

end

/-- A two-pixel drainage network for concrete evaluation: pixel 0 drains into
pixel 1, which is the outlet. -/
def downW : Fin 2 → Option (Fin 2) := fun p => if p = 0 then some 1 else none

/-- Topological distances from the outlet for `downW`. -/
def distW : Fin 2 → ℕ := fun p => if p = 0 then 1 else 0

/-! ## Shared lemmas -/

theorem splitRouting_chan2M3_ge (p : ChanParams) (pp : SplitParams) (kw1 kw2 : ℝ) :
    pp.Chan2M3Start ≤ (SplitRouting p pp kw1 kw2).Chan2M3Kin := by
  simp only [SplitRouting]
  split_ifs with h
  · exact le_refl _
  · linarith [not_lt.mp h]

theorem kinRouting_nonneg (p : ChanParams) (Qkw : ℝ)
    (hL : 0 ≤ p.InvChanLength) (hA : 0 ≤ p.InvChannelAlpha) :
    0 ≤ (KINRouting p Qkw).1 ∧ 0 ≤ (KINRouting p Qkw).2 := by
  constructor
  · exact Real.rpow_nonneg (mul_nonneg (mul_nonneg (le_max_right _ _) hL) hA) _
  · exact le_max_right _ _

theorem splitRouting_state_nonneg (p : ChanParams) (pp : SplitParams) (kw1 kw2 : ℝ)
    (hL : 0 ≤ p.InvChanLength) (hA : 0 ≤ p.InvChannelAlpha)
    (hA2 : 0 ≤ p.InvChannelAlpha2) (hS : 0 ≤ pp.Chan2M3Start) :
    0 ≤ (SplitRouting p pp kw1 kw2).ChanQKin ∧
    0 ≤ (SplitRouting p pp kw1 kw2).ChanM3Kin ∧
    0 ≤ (SplitRouting p pp kw1 kw2).Chan2QKin ∧
    0 ≤ (SplitRouting p pp kw1 kw2).Chan2M3Kin := by
  have hM2 : 0 ≤ (SplitRouting p pp kw1 kw2).Chan2M3Kin :=
    le_trans hS (splitRouting_chan2M3_ge p pp kw1 kw2)
  refine ⟨?_, le_max_right _ _, ?_, hM2⟩
  · exact Real.rpow_nonneg (mul_nonneg (mul_nonneg (le_max_right _ _) hL) hA) _
  · exact Real.rpow_nonneg (mul_nonneg (mul_nonneg hM2 hL) hA2) _

theorem hoqGo_eq_iterate (q s0 Balv ANalv Nalv : ℝ) :
    ∀ (n : ℕ) (y : ℝ), ∃ k ≤ n,
      hoqGo q s0 Balv ANalv Nalv n y =
        (fun z => newtonStep q s0 Balv ANalv Nalv z)^[k] y := by
  intro n
  induction n with
  | zero => exact fun y => ⟨0, le_refl 0, rfl⟩
  | succ n ih =>
    intro y
    by_cases h : |newtonDy q s0 Balv ANalv Nalv y| < hoqEps
    · refine ⟨1, by omega, ?_⟩
      simp only [hoqGo, if_pos h, Function.iterate_one]
      rfl
    · obtain ⟨k, hk, hek⟩ := ih (newtonStep q s0 Balv ANalv Nalv y)
      refine ⟨k + 1, by omega, ?_⟩
      simp only [hoqGo, if_neg h]
      rw [Function.iterate_succ_apply]
      simp only [newtonStep] at hek ⊢
      exact hek

theorem floor_eps_nonneg (x : ℝ) : 0 ≤ if x < 0 then mctEps else x := by
  split_ifs with h
  · norm_num [mctEps]
  · exact not_lt.mp h

theorem floor_zero_nonneg (x : ℝ) : 0 ≤ if x < 0 then (0 : ℝ) else x := by
  split_ifs with h
  · exact le_refl 0
  · exact not_lt.mp h

theorem mct_single_nonneg (q10 q01 q00 ql Cm0 Dm0 dt xpix s0 Balv ANalv Nalv : ℝ) :
    0 ≤ (MCTRouting_single q10 q01 q00 ql Cm0 Dm0 dt xpix s0 Balv ANalv Nalv).1 ∧
    0 ≤ (MCTRouting_single q10 q01 q00 ql Cm0 Dm0 dt xpix s0 Balv ANalv Nalv).2.1 := by
  simp only [MCTRouting_single, MCTPass]
  exact ⟨floor_eps_nonneg _, floor_zero_nonneg _⟩

/-! ## Claims -/

/-- C1: after every router invocation (kinematic, split-routing and MCT) the
resulting discharge and channel storage are non-negative: negative values are
clamped (to zero in kinematic/split routing, to `eps` for the MCT intermediate
outflow) and never raised as an error. -/
theorem routers_nonneg (p : ChanParams) (pp : SplitParams)
    (hL : 0 ≤ p.InvChanLength) (hA : 0 ≤ p.InvChannelAlpha)
    (hA2 : 0 ≤ p.InvChannelAlpha2) (hS : 0 ≤ pp.Chan2M3Start) :
    (∀ Qkw, 0 ≤ (KINRouting p Qkw).1 ∧ 0 ≤ (KINRouting p Qkw).2) ∧
    (∀ kw1 kw2,
      0 ≤ (splitRecombine pp (SplitRouting p pp kw1 kw2)).1 ∧
      0 ≤ (splitRecombine pp (SplitRouting p pp kw1 kw2)).2 ∧
      0 ≤ (SplitRouting p pp kw1 kw2).ChanQKin ∧
      0 ≤ (SplitRouting p pp kw1 kw2).ChanM3Kin ∧
      0 ≤ (SplitRouting p pp kw1 kw2).Chan2QKin ∧
      0 ≤ (SplitRouting p pp kw1 kw2).Chan2M3Kin) ∧
    (∀ q10 q01 q00 ql Cm0 Dm0 dt xpix s0 Balv ANalv Nalv : ℝ,
      0 ≤ (MCTRouting_single q10 q01 q00 ql Cm0 Dm0 dt xpix s0 Balv ANalv Nalv).1 ∧
      0 ≤ (MCTRouting_single q10 q01 q00 ql Cm0 Dm0 dt xpix s0 Balv ANalv Nalv).2.1) := by
  refine ⟨fun Qkw => kinRouting_nonneg p Qkw hL hA, fun kw1 kw2 => ?_,
    fun q10 q01 q00 ql Cm0 Dm0 dt xpix s0 Balv ANalv Nalv =>
      mct_single_nonneg q10 q01 q00 ql Cm0 Dm0 dt xpix s0 Balv ANalv Nalv⟩
  obtain ⟨h1, h2, h3, h4⟩ := splitRouting_state_nonneg p pp kw1 kw2 hL hA hA2 hS
  have hge := splitRouting_chan2M3_ge p pp kw1 kw2
  have hM3 : (splitRecombine pp (SplitRouting p pp kw1 kw2)).2 =
      (SplitRouting p pp kw1 kw2).ChanM3Kin +
      (SplitRouting p pp kw1 kw2).Chan2M3Kin - pp.Chan2M3Start := rfl
  refine ⟨le_max_right _ _, ?_, h1, h2, h3, h4⟩
  rw [hM3]
  linarith

/-- C1 witness: the three routers evaluated at concrete inputs. -/
theorem routers_nonneg_witness :
    (0 ≤ (KINRouting ⟨1, 1, 1, 1, 1, 1, 1, 1⟩ 2).1 ∧
      0 ≤ (KINRouting ⟨1, 1, 1, 1, 1, 1, 1, 1⟩ 2).2) ∧
    (0 ≤ (splitRecombine ⟨0, 1, 0, 0⟩ (SplitRouting ⟨1, 1, 1, 1, 1, 1, 1, 1⟩ ⟨0, 1, 0, 0⟩ 1 1)).1 ∧
      0 ≤ (splitRecombine ⟨0, 1, 0, 0⟩ (SplitRouting ⟨1, 1, 1, 1, 1, 1, 1, 1⟩ ⟨0, 1, 0, 0⟩ 1 1)).2 ∧
      0 ≤ (SplitRouting ⟨1, 1, 1, 1, 1, 1, 1, 1⟩ ⟨0, 1, 0, 0⟩ 1 1).ChanQKin ∧
      0 ≤ (SplitRouting ⟨1, 1, 1, 1, 1, 1, 1, 1⟩ ⟨0, 1, 0, 0⟩ 1 1).ChanM3Kin ∧
      0 ≤ (SplitRouting ⟨1, 1, 1, 1, 1, 1, 1, 1⟩ ⟨0, 1, 0, 0⟩ 1 1).Chan2QKin ∧
      0 ≤ (SplitRouting ⟨1, 1, 1, 1, 1, 1, 1, 1⟩ ⟨0, 1, 0, 0⟩ 1 1).Chan2M3Kin) ∧
    (0 ≤ (MCTRouting_single 1 1 1 1 1 1 1 1 1 1 1 1).1 ∧
      0 ≤ (MCTRouting_single 1 1 1 1 1 1 1 1 1 1 1 1).2.1) :=
  ⟨(routers_nonneg ⟨1, 1, 1, 1, 1, 1, 1, 1⟩ ⟨0, 1, 0, 0⟩ (by norm_num) (by norm_num)
      (by norm_num) (by norm_num)).1 2,
   (routers_nonneg ⟨1, 1, 1, 1, 1, 1, 1, 1⟩ ⟨0, 1, 0, 0⟩ (by norm_num) (by norm_num)
      (by norm_num) (by norm_num)).2.1 1 1,
   (routers_nonneg ⟨1, 1, 1, 1, 1, 1, 1, 1⟩ ⟨0, 1, 0, 0⟩ (by norm_num) (by norm_num)
      (by norm_num) (by norm_num)).2.2 1 1 1 1 1 1 1 1 1 1 1 1⟩

/-- C2: for every kinematic pixel, the pair (discharge, storage) returned by
`KINRouting` satisfies `storage = ChanLength * ChannelAlpha * discharge ^ Beta`
with `storage ≥ 0`: the routed storage is clamped at zero and the discharge is
recomputed from the clamped volume as
`Q = (V * InvChanLength * InvChannelAlpha) ^ InvBeta`. -/
theorem KINRouting_storage_discharge_consistent (p : ChanParams) (Qkw : ℝ)
    (hL : 0 < p.ChanLength) (hA : 0 < p.ChannelAlpha) (hB : p.Beta ≠ 0)
    (hiL : p.InvChanLength = 1 / p.ChanLength)
    (hiA : p.InvChannelAlpha = 1 / p.ChannelAlpha)
    (hiB : p.InvBeta = 1 / p.Beta) :
    (KINRouting p Qkw).2 =
      p.ChanLength * p.ChannelAlpha * (KINRouting p Qkw).1 ^ p.Beta ∧
    0 ≤ (KINRouting p Qkw).2 := by
  simp only [KINRouting]
  constructor
  · set V := max (p.ChanLength * p.ChannelAlpha * Qkw ^ p.Beta) 0 with hV
    have hV0 : 0 ≤ V := le_max_right _ _
    have h1 : p.ChanLength ≠ 0 := ne_of_gt hL
    have h2 : p.ChannelAlpha ≠ 0 := ne_of_gt hA
    have hbase : 0 ≤ V * p.InvChanLength * p.InvChannelAlpha := by
      refine mul_nonneg (mul_nonneg hV0 ?_) ?_
      · rw [hiL]; positivity
      · rw [hiA]; positivity
    rw [hiB, ← Real.rpow_mul hbase, one_div_mul_cancel hB, Real.rpow_one, hiL, hiA]
    field_simp
  · exact le_max_right _ _

/-- C2 witness: consistency at a concrete pixel (`Beta = 1`). -/
theorem KINRouting_storage_discharge_consistent_witness :
    (KINRouting ⟨1, 1, 1, 1, 1, 1, 1, 1⟩ 2).2 =
      1 * 1 * (KINRouting ⟨1, 1, 1, 1, 1, 1, 1, 1⟩ 2).1 ^ (1 : ℝ) ∧
    0 ≤ (KINRouting ⟨1, 1, 1, 1, 1, 1, 1, 1⟩ 2).2 :=
  KINRouting_storage_discharge_consistent ⟨1, 1, 1, 1, 1, 1, 1, 1⟩ 2 (by norm_num)
    (by norm_num) (by norm_num) (by norm_num) (by norm_num) (by norm_num)

/-- C4: with split routing active, the totals committed after each routing
sub-step are `ChanQ = max(ChanQKin + Chan2QKin - QLimit, 0)` and
`ChanM3 = ChanM3Kin + Chan2M3Kin - Chan2M3Start`; hence `ChanQ ≥ 0` and
`ChanQ + QLimit ≥ ChanQKin`. -/
theorem splitRecombine_totals (p : ChanParams) (pp : SplitParams) (kw1 kw2 : ℝ)
    (hL : 0 ≤ p.InvChanLength) (hA2 : 0 ≤ p.InvChannelAlpha2)
    (hS : 0 ≤ pp.Chan2M3Start) :
    (splitRecombine pp (SplitRouting p pp kw1 kw2)).1 =
      max ((SplitRouting p pp kw1 kw2).ChanQKin +
        (SplitRouting p pp kw1 kw2).Chan2QKin - pp.QLimit) 0 ∧
    (splitRecombine pp (SplitRouting p pp kw1 kw2)).2 =
      (SplitRouting p pp kw1 kw2).ChanM3Kin +
        (SplitRouting p pp kw1 kw2).Chan2M3Kin - pp.Chan2M3Start ∧
    0 ≤ (splitRecombine pp (SplitRouting p pp kw1 kw2)).1 ∧
    (SplitRouting p pp kw1 kw2).ChanQKin ≤
      (splitRecombine pp (SplitRouting p pp kw1 kw2)).1 + pp.QLimit := by
  have hM2 : 0 ≤ (SplitRouting p pp kw1 kw2).Chan2M3Kin :=
    le_trans hS (splitRouting_chan2M3_ge p pp kw1 kw2)
  have hQ2 : 0 ≤ (SplitRouting p pp kw1 kw2).Chan2QKin :=
    Real.rpow_nonneg (mul_nonneg (mul_nonneg hM2 hL) hA2) _
  refine ⟨rfl, rfl, le_max_right _ _, ?_⟩
  have hle : (SplitRouting p pp kw1 kw2).ChanQKin +
      (SplitRouting p pp kw1 kw2).Chan2QKin - pp.QLimit ≤
      (splitRecombine pp (SplitRouting p pp kw1 kw2)).1 := le_max_left _ _
  linarith

/-- C4 witness: the recombination identities at a concrete pixel. -/
theorem splitRecombine_totals_witness :
    (splitRecombine ⟨0, 1, 0, 0⟩ (SplitRouting ⟨1, 1, 1, 1, 1, 1, 1, 1⟩ ⟨0, 1, 0, 0⟩ 1 1)).1 =
      max ((SplitRouting ⟨1, 1, 1, 1, 1, 1, 1, 1⟩ ⟨0, 1, 0, 0⟩ 1 1).ChanQKin +
        (SplitRouting ⟨1, 1, 1, 1, 1, 1, 1, 1⟩ ⟨0, 1, 0, 0⟩ 1 1).Chan2QKin - 0) 0 ∧
    (splitRecombine ⟨0, 1, 0, 0⟩ (SplitRouting ⟨1, 1, 1, 1, 1, 1, 1, 1⟩ ⟨0, 1, 0, 0⟩ 1 1)).2 =
      (SplitRouting ⟨1, 1, 1, 1, 1, 1, 1, 1⟩ ⟨0, 1, 0, 0⟩ 1 1).ChanM3Kin +
        (SplitRouting ⟨1, 1, 1, 1, 1, 1, 1, 1⟩ ⟨0, 1, 0, 0⟩ 1 1).Chan2M3Kin - 0 ∧
    0 ≤ (splitRecombine ⟨0, 1, 0, 0⟩ (SplitRouting ⟨1, 1, 1, 1, 1, 1, 1, 1⟩ ⟨0, 1, 0, 0⟩ 1 1)).1 ∧
    (SplitRouting ⟨1, 1, 1, 1, 1, 1, 1, 1⟩ ⟨0, 1, 0, 0⟩ 1 1).ChanQKin ≤
      (splitRecombine ⟨0, 1, 0, 0⟩ (SplitRouting ⟨1, 1, 1, 1, 1, 1, 1, 1⟩ ⟨0, 1, 0, 0⟩ 1 1)).1 + 0 :=
  splitRecombine_totals ⟨1, 1, 1, 1, 1, 1, 1, 1⟩ ⟨0, 1, 0, 0⟩ 1 1 (by norm_num)
    (by norm_num) (by norm_num)

/-- C5: in `MCTRouting_single` the reference discharges `qmx0`, `qmx1` and
`qm1` are replaced by `eps = 1e-6` exactly when the corresponding average is
zero (and left untouched otherwise) before depth inversion via `hoq`, and a
negative intermediate outflow produced by the Muskingum update of a
refinement pass is floored at `eps`, not at zero. -/
theorem mct_eps_guards :
    (∀ a b : ℝ, (a + b) / 2 = 0 → refQ a b = mctEps) ∧
    (∀ a b : ℝ, (a + b) / 2 ≠ 0 → refQ a b = (a + b) / 2) ∧
    (0 : ℝ) < mctEps ∧ mctEps = 1e-6 ∧
    (∀ q10 q01 q00 ql Cm0 Dm0 dt xpix s0 Balv ANalv Nalv q11 : ℝ,
      (MCTPassCore q10 q01 q00 ql Cm0 Dm0 dt xpix s0 Balv ANalv Nalv q11).1 < 0 →
      (MCTPass q10 q01 q00 ql Cm0 Dm0 dt xpix s0 Balv ANalv Nalv q11).1 = mctEps) := by
  refine ⟨fun a b h => by simp [refQ, h], fun a b h => by simp [refQ, h],
    by norm_num [mctEps], rfl,
    fun q10 q01 q00 ql Cm0 Dm0 dt xpix s0 Balv ANalv Nalv q11 h => ?_⟩
  simp only [MCTPass]
  rw [if_pos h]

/-- C5 witness: a zero reference average replaced by `eps`, a nonzero one
kept, and a pass whose Muskingum update is negative returning `eps`. -/
theorem mct_eps_guards_witness :
    refQ 1 (-1) = mctEps ∧ refQ 1 1 = (1 + 1) / 2 ∧
    (MCTPass 0 1 0 0 1 1 1 0 1 1 1 1 0).1 = mctEps :=
  ⟨mct_eps_guards.1 1 (-1) (by norm_num), mct_eps_guards.2.1 1 1 (by norm_num),
    mct_eps_guards.2.2.2.2 0 1 0 0 1 1 1 0 1 1 1 1 0
      (by norm_num [MCTPassCore, refQ, mctEps])⟩

/-- C6: the depth-from-discharge solver `hoq` terminates for every input: its
result is some iterate `k ≤ max_tries - 1 = 999` of the Newton map
`y ↦ y - (Q(y) - Q_target) / (width(y) · celerity(y))` started from the
closed-form initial estimate; a pass whose correction satisfies `|dy| < 1e-6`
is the last one; and on non-convergence the last iterate is returned rather
than an error being raised. -/
theorem hoq_newton_characterisation :
    (∀ q s0 Balv ANalv Nalv : ℝ, ∃ k ≤ hoqMaxTries - 1,
      hoq q s0 Balv ANalv Nalv =
        (fun z => newtonStep q s0 Balv ANalv Nalv z)^[k]
          (hoqInit q s0 Balv ANalv Nalv)) ∧
    (∀ (q s0 Balv ANalv Nalv : ℝ) (n : ℕ) (y : ℝ),
      |newtonDy q s0 Balv ANalv Nalv y| < hoqEps →
      hoqGo q s0 Balv ANalv Nalv (n + 1) y = newtonStep q s0 Balv ANalv Nalv y) ∧
    (∀ q s0 Balv ANalv Nalv y : ℝ,
      newtonDy q s0 Balv ANalv Nalv y =
        ((qoh y s0 Balv ANalv Nalv).q - q) /
          ((qoh y s0 Balv ANalv Nalv).b * (qoh y s0 Balv ANalv Nalv).cel)) := by
  refine ⟨fun q s0 Balv ANalv Nalv => hoqGo_eq_iterate q s0 Balv ANalv Nalv _ _,
    fun q s0 Balv ANalv Nalv n y h => ?_, fun q s0 Balv ANalv Nalv y => rfl⟩
  simp only [hoqGo, if_pos h]
  rfl

/-- C6 witness: the iterate decomposition at a concrete input, and an early
stop at an input whose Newton correction is zero. -/
theorem hoq_newton_characterisation_witness :
    (∃ k ≤ hoqMaxTries - 1,
      hoq 1 1 1 2 1 = (fun z => newtonStep 1 1 1 2 1 z)^[k] (hoqInit 1 1 1 2 1)) ∧
    hoqGo (qoh 1 1 1 2 1).q 1 1 2 1 1 1 = newtonStep (qoh 1 1 1 2 1).q 1 1 2 1 1 := by
  refine ⟨hoq_newton_characterisation.1 1 1 1 2 1,
    hoq_newton_characterisation.2.1 (qoh 1 1 1 2 1).q 1 1 2 1 0 1 ?_⟩
  norm_num [newtonDy, hoqEps]

/-- C7: `qoh` returns exactly the Manning discharge
`q = sqrt(s0)/Nalv · A^(5/3) / P^(2/3)` and the celerity
`cel = (q/3)·(5/A - 4/(P·B·sin(ANalv)))` with
`A = (Balv + y·cot(ANalv))·y`, `B = Balv + 2y·cot(ANalv)`,
`P = Balv + 2y/sin(ANalv)`, where `cot(ANalv)` is taken as `0` and
`sin(ANalv)` as `1` for rectangular sections (`ANalv ≥ π/2`). -/
theorem qoh_manning_formula (y s0 Balv ANalv Nalv : ℝ) :
    (qoh y s0 Balv ANalv Nalv).q =
      Real.sqrt s0 / Nalv * specArea y Balv ANalv ^ ((5 : ℝ) / 3) /
        specPerimeter y Balv ANalv ^ ((2 : ℝ) / 3) ∧
    (qoh y s0 Balv ANalv Nalv).cel =
      (qoh y s0 Balv ANalv Nalv).q / 3 *
        (5 / specArea y Balv ANalv -
          4 / (specPerimeter y Balv ANalv * specWidth y Balv ANalv * specSin ANalv)) := by
  have h23 : (5 : ℝ) / 3 - 1 = 2 / 3 := by norm_num
  by_cases h : ANalv < Real.pi / 2
  · simp only [qoh, specArea, specWidth, specPerimeter, specCot, specSin, cotan,
      if_pos h, if_neg (not_le.mpr h), h23]
    exact ⟨trivial, trivial⟩
  · simp only [qoh, specArea, specWidth, specPerimeter, specCot, specSin, cotan,
      if_neg h, if_pos (not_lt.mp h), h23]
    exact ⟨trivial, trivial⟩

/-- C8: `SplitRouting` routes the whole lateral inflow to the main channel
when its magnitude is below `1e-7`; otherwise it gives the main channel the
storage fraction `ChanM3Kin / (ChanM3Kin + Chan2M3Kin)` of the inflow when
the combined storage `ChanM3Kin + Chan2M3Kin - Chan2M3Start` exceeds
`M3Limit`, and the whole inflow when it does not. -/
theorem sideflow_partition (pp : SplitParams) (s : SplitState) (S : ℝ) :
    (|S| < 1e-7 → Sideflow1Chan pp s S = S) ∧
    (¬ |S| < 1e-7 → s.ChanM3Kin + s.Chan2M3Kin - pp.Chan2M3Start > pp.M3Limit →
      s.ChanM3Kin + s.Chan2M3Kin > 0 →
      Sideflow1Chan pp s S = s.ChanM3Kin / (s.ChanM3Kin + s.Chan2M3Kin) * S) ∧
    (¬ |S| < 1e-7 → ¬ s.ChanM3Kin + s.Chan2M3Kin - pp.Chan2M3Start > pp.M3Limit →
      Sideflow1Chan pp s S = S) := by
  unfold Sideflow1Chan SideflowRatio
  refine ⟨fun h => by simp [h], fun h h1 h2 => by simp [h, h1, h2],
    fun h h1 => by simp [h, h1]⟩

/-- C8 witness: the three branches of the lateral-inflow partition at
concrete inputs. -/
theorem sideflow_partition_witness :
    Sideflow1Chan ⟨0, 1, 0, 0⟩ ⟨0, 2, 0, 2⟩ 0 = 0 ∧
    Sideflow1Chan ⟨0, 1, 0, 0⟩ ⟨0, 2, 0, 2⟩ 1 = 2 / (2 + 2) * 1 ∧
    Sideflow1Chan ⟨0, 10, 0, 0⟩ ⟨0, 2, 0, 2⟩ 1 = 1 := by
  refine ⟨(sideflow_partition ⟨0, 1, 0, 0⟩ ⟨0, 2, 0, 2⟩ 0).1 (by norm_num),
    ?_, ((sideflow_partition ⟨0, 10, 0, 0⟩ ⟨0, 2, 0, 2⟩ 1).2.2 (by norm_num)
      (by norm_num))⟩
  exact ((sideflow_partition ⟨0, 1, 0, 0⟩ ⟨0, 2, 0, 2⟩ 1).2.1 (by norm_num)
    (by norm_num) (by norm_num))

/-- C9: after every `SplitRouting` call the floodplain storage `Chan2M3Kin`
is at least its bankfull-start volume `Chan2M3Start`. -/
theorem splitRouting_floodplain_floor (p : ChanParams) (pp : SplitParams)
    (kw1 kw2 : ℝ) :
    pp.Chan2M3Start ≤ (SplitRouting p pp kw1 kw2).Chan2M3Kin := by
  simp only [SplitRouting]
  split_ifs with h
  · exact le_refl _
  · linarith [not_lt.mp h]

theorem sum_range_ite (j m : ℕ) (hj : j < m) :
    (((List.range m).map fun k => if j = k then 1 else 0).sum) = 1 := by
  induction m with
  | zero => omega
  | succ m ih =>
    rw [List.range_succ, List.map_append, List.sum_append]
    by_cases h : j < m
    · rw [ih h]
      simp [Nat.ne_of_lt h]
    · have hj' : j = m := by omega
      subst hj'
      have h0 : ((List.range j).map fun k => if j = k then 1 else 0).sum = 0 := by
        apply List.sum_eq_zero
        intro x hx
        obtain ⟨k, hk, rfl⟩ := List.mem_map.mp hx
        have hkj : k < j := List.mem_range.mp hk
        simp [Nat.ne_of_gt hkj]
      simp [h0]

theorem count_batchPixels {n : ℕ} (dist : Fin n → ℕ) (k : ℕ) (p : Fin n) :
    (batchPixels dist k).count p = if routingOrder dist p = k then 1 else 0 := by
  by_cases h : routingOrder dist p = k
  · rw [if_pos h]
    apply List.count_eq_one_of_mem ((List.nodup_finRange n).filter _)
    simp [batchPixels, List.mem_filter, h]
  · rw [if_neg h]
    apply List.count_eq_zero_of_not_mem
    simp [batchPixels, List.mem_filter, h]

theorem routingOrder_le_max {n : ℕ} (dist : Fin n → ℕ) (p : Fin n) :
    routingOrder dist p ≤ maxTopoDist dist :=
  Nat.sub_le _ _

theorem count_pixelsOrdered {n : ℕ} (dist : Fin n → ℕ) (p : Fin n) :
    (pixelsOrdered dist).count p = 1 := by
  rw [pixelsOrdered, List.count_flatMap]
  have hcomp : (List.range (maxTopoDist dist + 1)).map (List.count p ∘ batchPixels dist)
      = (List.range (maxTopoDist dist + 1)).map
          fun k => if routingOrder dist p = k then 1 else 0 := by
    apply List.map_congr_left
    intro k _
    exact count_batchPixels dist k p
  rw [hcomp]
  exact sum_range_ite _ _ (by have := routingOrder_le_max dist p; omega)

theorem pixelsOrdered_perm {n : ℕ} (dist : Fin n → ℕ) :
    (pixelsOrdered dist).Perm (List.finRange n) := by
  apply List.perm_iff_count.mpr
  intro a
  rw [count_pixelsOrdered,
    List.count_eq_one_of_mem (List.nodup_finRange n) (List.mem_finRange a)]

theorem length_pixelsOrdered_eq_stop {n : ℕ} (dist : Fin n → ℕ) :
    (pixelsOrdered dist).length = orderStop dist (maxTopoDist dist) := by
  rw [pixelsOrdered, List.length_flatMap, List.range_succ, List.map_append,
    List.sum_append]
  simp [orderStop, orderStart, Function.comp_def]

theorem pixelsOrdered_slice {n : ℕ} (dist : Fin n → ℕ) (k : ℕ)
    (hk : k ≤ maxTopoDist dist) :
    ((pixelsOrdered dist).drop (orderStart dist k)).take
      (batchPixels dist k).length = batchPixels dist k := by
  have h1 : List.range' 0 k ++ List.range' (0 + k) (maxTopoDist dist + 1 - k)
      = List.range' 0 (maxTopoDist dist + 1) := by
    rw [List.range'_append_1]
    congr 1
    omega
  have hsplit : List.range (maxTopoDist dist + 1)
      = List.range' 0 k ++ List.range' k (maxTopoDist dist + 1 - k) := by
    rw [List.range_eq_range', ← h1, Nat.zero_add]
  rw [pixelsOrdered, hsplit, List.flatMap_append]
  have hlen : ((List.range' 0 k).flatMap (batchPixels dist)).length
      = orderStart dist k := by
    rw [List.length_flatMap, orderStart, ← List.range_eq_range']
    simp [Function.comp_def]
  rw [List.drop_left' hlen]
  have h2 : maxTopoDist dist + 1 - k = (maxTopoDist dist - k) + 1 := by omega
  rw [h2, List.range'_succ, List.flatMap_cons]
  exact List.take_left _ _

/-- C3: with the topological distance from the outlet as the spec describes
it, the scheduler batch index is `(max distance over the network) - (pixel's
distance)`: outlets get the highest batch number, every upstream pixel lies
in a strictly earlier batch than its downstream pixel, and `order_start_stop`
partitions the batch-sorted pixel array into contiguous per-batch index
ranges covering every pixel exactly once. -/
theorem mct_routing_orders_sound {n : ℕ} (down : Fin n → Option (Fin n))
    (dist : Fin n → ℕ) (h : TopoDistSpec down dist) :
    (∀ p, down p = none → ∀ q, routingOrder dist q ≤ routingOrder dist p) ∧
    (∀ p q, down p = some q → routingOrder dist p < routingOrder dist q) ∧
    orderStart dist 0 = 0 ∧
    (∀ k, orderStart dist (k + 1) = orderStop dist k) ∧
    (pixelsOrdered dist).length = n ∧
    orderStop dist (maxTopoDist dist) = (pixelsOrdered dist).length ∧
    (∀ p, (pixelsOrdered dist).count p = 1) ∧
    (∀ k, k ≤ maxTopoDist dist →
      ((pixelsOrdered dist).drop (orderStart dist k)).take
        (batchPixels dist k).length = batchPixels dist k) := by
  refine ⟨?_, ?_, rfl, ?_, ?_, (length_pixelsOrdered_eq_stop dist).symm,
    count_pixelsOrdered dist, pixelsOrdered_slice dist⟩
  · intro p hp q
    have hd : dist p = 0 := by rw [h p, hp]; rfl
    simp only [routingOrder, hd]
    omega
  · intro p q hpq
    have hd : dist p = dist q + 1 := by rw [h p, hpq]; rfl
    have hle : dist p ≤ maxTopoDist dist := by
      simp only [maxTopoDist]
      exact Finset.le_sup (Finset.mem_univ p)
    simp only [routingOrder]
    omega
  · intro k
    simp [orderStart, orderStop, List.range_succ]
  · rw [(pixelsOrdered_perm dist).length_eq, List.length_finRange]

/-- C3 witness: the scheduler facts on the two-pixel chain `downW`. -/
theorem mct_routing_orders_sound_witness :
    routingOrder distW 0 ≤ routingOrder distW 1 ∧
    routingOrder distW 0 < routingOrder distW 1 ∧
    orderStart distW 0 = 0 ∧
    orderStart distW 1 = orderStop distW 0 ∧
    (pixelsOrdered distW).length = 2 ∧
    (pixelsOrdered distW).count 0 = 1 ∧
    ((pixelsOrdered distW).drop (orderStart distW 0)).take
      (batchPixels distW 0).length = batchPixels distW 0 := by
  have H := mct_routing_orders_sound downW distW (by intro p; fin_cases p <;> rfl)
  exact ⟨H.1 1 rfl 0, H.2.1 0 1 rfl, H.2.2.1, H.2.2.2.1 0, H.2.2.2.2.1,
    H.2.2.2.2.2.2.1 0, H.2.2.2.2.2.2.2 0 (Nat.zero_le _)⟩

/-- C10: for every vector `v` with one entry per MCT pixel, `put_mct_pix`
succeeds and produces a full-catchment array holding `v` at the MCT positions
and exactly zero at every kinematic position, and `get_mct_pix` recovers `v`:
the compress/explode pair is a round-trip identity on MCT-pixel arrays. -/
theorem put_get_mct_roundtrip {α : Type} [Zero α] (mask : List Bool) (v : List α)
    (h : v.length = mask.count false) :
    ∃ w, put_mct_pix mask v = some w ∧ w.length = mask.length ∧
      (∀ i : ℕ, mask[i]? = some true → w[i]? = some 0) ∧
      get_mct_pix mask w = v := by
  induction mask generalizing v with
  | nil =>
    have hv : v = [] := List.length_eq_zero.mp (by simpa using h)
    subst hv
    exact ⟨[], rfl, rfl, fun i hi => by simp at hi, rfl⟩
  | cons b m ih =>
    cases b with
    | true =>
      have h' : v.length = m.count false := by simpa [List.count_cons] using h
      obtain ⟨w, hw, hlen, hzero, hget⟩ := ih v h'
      refine ⟨0 :: w, by simp [put_mct_pix, hw], by simp [hlen], ?_, ?_⟩
      · intro i hi
        cases i with
        | zero => simp
        | succ j =>
          simp only [List.getElem?_cons_succ] at hi ⊢
          exact hzero j hi
      · show get_mct_pix (true :: m) (0 :: w) = v
        simp only [get_mct_pix, List.zip_cons_cons, List.filterMap_cons] at hget ⊢
        simpa using hget
    | false =>
      cases v with
      | nil =>
        simp [List.count_cons] at h
      | cons x v' =>
        have h' : v'.length = m.count false := by simpa [List.count_cons] using h
        obtain ⟨w, hw, hlen, hzero, hget⟩ := ih v' h'
        refine ⟨x :: w, by simp [put_mct_pix, hw], by simp [hlen], ?_, ?_⟩
        · intro i hi
          cases i with
          | zero => simp at hi
          | succ j =>
            simp only [List.getElem?_cons_succ] at hi ⊢
            exact hzero j hi
        · show get_mct_pix (false :: m) (x :: w) = x :: v'
          simp only [get_mct_pix, List.zip_cons_cons, List.filterMap_cons] at hget ⊢
          simpa using hget

/-- C10 witness: the round trip on a two-pixel catchment whose second pixel
is the MCT one. -/
theorem put_get_mct_roundtrip_witness :
    [(5 : ℚ)].length = [true, false].count false ∧
    ∃ w, put_mct_pix [true, false] [(5 : ℚ)] = some w ∧
      w.length = [true, false].length ∧
      (∀ i : ℕ, [true, false][i]? = some true → w[i]? = some (0 : ℚ)) ∧
      get_mct_pix [true, false] w = [(5 : ℚ)] :=
  ⟨by decide, put_get_mct_roundtrip [true, false] [(5 : ℚ)] (by decide)⟩

end Lisflood
